import Mathlib

/-!
Shallow embedding of gas-buddy/configured-etcd-client (canonical variant:
the most recent source file, with `maxWait`-bounded lock acquisition, the
`ttl !== 0` memoize cache guard and the logger assertion in the
constructor), together with theorems settling the frozen claims about it.
-/

namespace EtcdModel

/-! ## Lock acquisition protocol (`acquireLock`)

The source loops `while (Date.now() - startTime < maxWait * 1000)`.
Each iteration increments `attempt`, awaits `lock.lock()` (the microlock
create-if-absent attempt); on success it returns the lock (status `acq`);
on a non-`AlreadyLockedError` it rethrows (status `err`); on contention it
sleeps `250 * attempt` ms and, if the `unlock` notification has fired
(`alerted`), returns the lock immediately (status `wait-acq`) with no
further acquisition attempt.  If the loop exits, it throws a timeout error
whose `waitTime` field is `Date.now() - startTime`.

We model wall-clock time explicitly: `tryDur a` is the time the `a`-th
`lock.lock()` round trip takes, `outcome a` its result, and `alerted a`
whether the `unlock` notification has been observed by the time the
post-delay check of attempt `a` runs. -/

inductive AttemptOutcome
  | success
  | contention
  | storeError
deriving DecidableEq, Repr

inductive AcqResult
  /-- returned with status `acq` after a successful `lock.lock()` -/
  | acquired (attempt : Nat) (elapsedMs : Nat)
  /-- returned with status `wait-acq` after the `unlock` notification -/
  | waitAcquired (attempt : Nat) (elapsedMs : Nat)
  /-- a non-contention store error rethrown with status `err` -/
  | errored (attempt : Nat) (elapsedMs : Nat)
  /-- `Error('Timed out waiting for lock')` carrying `waitTime` -/
  | timedOut (waitTimeMs : Nat)
deriving DecidableEq, Repr

/-- The backoff used by the source: `await delay(250 * attempt)` (no cap). -/
def backoffDelay (attempt : Nat) : Nat := 250 * attempt

def acquireLoop (outcome : Nat → AttemptOutcome) (alerted : Nat → Bool)
    (tryDur : Nat → Nat) (maxWaitMs : Nat) (elapsed : Nat) (attempt : Nat) :
    AcqResult :=
  if elapsed < maxWaitMs then
    match outcome (attempt + 1) with
    | .success => .acquired (attempt + 1) (elapsed + tryDur (attempt + 1))
    | .storeError => .errored (attempt + 1) (elapsed + tryDur (attempt + 1))
    | .contention =>
      if alerted (attempt + 1) then
        .waitAcquired (attempt + 1)
          (elapsed + tryDur (attempt + 1) + backoffDelay (attempt + 1))
      else
        acquireLoop outcome alerted tryDur maxWaitMs
          (elapsed + tryDur (attempt + 1) + backoffDelay (attempt + 1))
          (attempt + 1)
  else
    .timedOut elapsed
termination_by maxWaitMs - elapsed
decreasing_by
  simp only [backoffDelay]
  omega

/-- `acquireLock(context, key, timeout, maxWait)` starts the loop at
`startTime` with `attempt = 0`; `maxWait` is in seconds. -/
def acquireLock (outcome : Nat → AttemptOutcome) (alerted : Nat → Bool)
    (tryDur : Nat → Nat) (maxWaitS : Nat) : AcqResult :=
  acquireLoop outcome alerted tryDur (maxWaitS * 1000) 0 0

end EtcdModel

namespace EtcdModel

/-! ### One-step unfolding lemmas for the acquisition loop -/

theorem acquireLoop_step_success (outcome : Nat → AttemptOutcome)
    (alerted : Nat → Bool) (tryDur : Nat → Nat) (maxWaitMs elapsed attempt : Nat)
    (hlt : elapsed < maxWaitMs) (heq : outcome (attempt + 1) = .success) :
    acquireLoop outcome alerted tryDur maxWaitMs elapsed attempt
      = .acquired (attempt + 1) (elapsed + tryDur (attempt + 1)) := by
  conv_lhs => rw [acquireLoop]
  simp [hlt, heq]

theorem acquireLoop_step_storeError (outcome : Nat → AttemptOutcome)
    (alerted : Nat → Bool) (tryDur : Nat → Nat) (maxWaitMs elapsed attempt : Nat)
    (hlt : elapsed < maxWaitMs) (heq : outcome (attempt + 1) = .storeError) :
    acquireLoop outcome alerted tryDur maxWaitMs elapsed attempt
      = .errored (attempt + 1) (elapsed + tryDur (attempt + 1)) := by
  conv_lhs => rw [acquireLoop]
  simp [hlt, heq]

/-- On contention with no notification observed, the loop sleeps
`backoffDelay (attempt + 1) = 250 * (attempt + 1)` ms and retries. -/
theorem acquireLoop_step_contention (outcome : Nat → AttemptOutcome)
    (alerted : Nat → Bool) (tryDur : Nat → Nat) (maxWaitMs elapsed attempt : Nat)
    (hlt : elapsed < maxWaitMs) (heq : outcome (attempt + 1) = .contention)
    (halert : alerted (attempt + 1) = false) :
    acquireLoop outcome alerted tryDur maxWaitMs elapsed attempt
      = acquireLoop outcome alerted tryDur maxWaitMs
          (elapsed + tryDur (attempt + 1) + backoffDelay (attempt + 1)) (attempt + 1) := by
  conv_lhs => rw [acquireLoop]
  simp [hlt, heq, halert]

/-- On contention, once the `unlock` notification has been observed the
source returns the lock object immediately (status `wait-acq`) without a
further `lock.lock()` call. -/
theorem acquireLoop_step_alerted (outcome : Nat → AttemptOutcome)
    (alerted : Nat → Bool) (tryDur : Nat → Nat) (maxWaitMs elapsed attempt : Nat)
    (hlt : elapsed < maxWaitMs) (heq : outcome (attempt + 1) = .contention)
    (halert : alerted (attempt + 1) = true) :
    acquireLoop outcome alerted tryDur maxWaitMs elapsed attempt
      = .waitAcquired (attempt + 1)
          (elapsed + tryDur (attempt + 1) + backoffDelay (attempt + 1)) := by
  conv_lhs => rw [acquireLoop]
  simp [hlt, heq, halert]

theorem acquireLoop_step_timeout (outcome : Nat → AttemptOutcome)
    (alerted : Nat → Bool) (tryDur : Nat → Nat) (maxWaitMs elapsed attempt : Nat)
    (hge : ¬ elapsed < maxWaitMs) :
    acquireLoop outcome alerted tryDur maxWaitMs elapsed attempt = .timedOut elapsed := by
  rw [acquireLoop]
  simp [hge]

/-- Helper: under all-contention and no notification, the loop can only
time out, and the reported `waitTime` is at least both the deadline and
the elapsed time at entry. -/
theorem acquireLoop_contention_timeout (outcome : Nat → AttemptOutcome)
    (alerted : Nat → Bool) (tryDur : Nat → Nat)
    (hc : ∀ a, outcome a = .contention) (ha : ∀ a, alerted a = false)
    (maxWaitMs : Nat) :
    ∀ elapsed attempt, ∃ w,
      acquireLoop outcome alerted tryDur maxWaitMs elapsed attempt
        = .timedOut w ∧ maxWaitMs ≤ w ∧ elapsed ≤ w := by
  intro elapsed attempt
  induction elapsed, attempt using acquireLoop.induct outcome alerted tryDur maxWaitMs with
  | case1 elapsed attempt hlt heq =>
    rw [hc] at heq
    simp at heq
  | case2 elapsed attempt hlt heq =>
    rw [hc] at heq
    simp at heq
  | case3 elapsed attempt hlt heq halert =>
    rw [ha] at halert
    simp at halert
  | case4 elapsed attempt hlt heq halert ih =>
    obtain ⟨w, hw, hmax, helap⟩ := ih
    refine ⟨w, ?_, hmax, by omega⟩
    rw [acquireLoop_step_contention outcome alerted tryDur maxWaitMs elapsed attempt hlt heq
      (by simpa using halert)]
    exact hw
  | case5 elapsed attempt hge =>
    exact ⟨elapsed, acquireLoop_step_timeout outcome alerted tryDur maxWaitMs elapsed attempt hge,
      by omega, le_refl _⟩

end EtcdModel

namespace EtcdModel

/-! ## Claims C1, C2, C3 -/

/-- C1 (counterexample): with every acquisition attempt failing with
contention, the code can still return a lock after `maxWait` has elapsed:
with `maxWait = 1` second, zero-duration attempts, and the `unlock`
notification observed after the third backoff delay, the loop returns the
lock (status `wait-acq`) at 1500 ms > 1000 ms, instead of raising the
timeout failure. -/
theorem C1_lock_returned_after_maxWait :
    acquireLock (fun _ => AttemptOutcome.contention) (fun a => a == 3) (fun _ => 0) 1
      = AcqResult.waitAcquired 3 1500 ∧ 1 * 1000 < 1500 := by
  refine ⟨?_, by norm_num⟩
  unfold acquireLock
  rw [acquireLoop_step_contention _ _ _ _ _ _ (by norm_num) rfl (by decide)]
  rw [acquireLoop_step_contention _ _ _ _ _ _ (by norm_num [backoffDelay]) rfl (by decide)]
  rw [acquireLoop_step_alerted _ _ _ _ _ _ (by norm_num [backoffDelay]) rfl (by decide)]
  norm_num [backoffDelay]

/-- C1 (amended): if every acquisition attempt fails with contention and
the `unlock` notification is never observed, then once `maxWait` seconds
have elapsed the loop stops retrying and throws the timeout error whose
`waitTime` field is the elapsed wait duration (≥ `maxWait * 1000` ms); in
particular no lock is returned.  (The amendment: when the notification
does fire, the code can return the lock even past `maxWait`; see the
counterexample.) -/
theorem C1_contention_times_out (outcome : Nat → AttemptOutcome)
    (alerted : Nat → Bool) (tryDur : Nat → Nat) (maxWaitS : Nat)
    (hc : ∀ a, outcome a = .contention) (ha : ∀ a, alerted a = false) :
    ∃ w, acquireLock outcome alerted tryDur maxWaitS = .timedOut w
      ∧ maxWaitS * 1000 ≤ w := by
  obtain ⟨w, hw, hmax, -⟩ :=
    acquireLoop_contention_timeout outcome alerted tryDur hc ha (maxWaitS * 1000) 0 0
  exact ⟨w, hw, hmax⟩

/-- C1 witness: concrete all-contention, never-alerted run with
`maxWait = 2` seconds. -/
theorem C1_contention_times_out_witness :
    ∃ w, acquireLock (fun _ => AttemptOutcome.contention) (fun _ => false) (fun _ => 0) 2
      = AcqResult.timedOut w ∧ 2 * 1000 ≤ w :=
  C1_contention_times_out (fun _ => AttemptOutcome.contention) (fun _ => false) (fun _ => 0) 2
    (fun _ => rfl) (fun _ => rfl)

/-- C2 (counterexample): the backoff delay is `250 * attempt` with no cap
applied: the delay before the 5th retry is already 1250 ms, whereas a
policy `min(step_delay * attempt, cap)` with any cap in the hundreds of
milliseconds (e.g. 999 ms) would have produced the cap; accordingly a
1-attempt-per-250·n-ms all-contention run against `maxWait = 3` s
accumulates 250+500+750+1000+1250 = 3750 ms of pure backoff. -/
theorem C2_backoff_uncapped_cex :
    backoffDelay 5 = 1250 ∧ min (250 * 5) 999 = 999 ∧
      acquireLock (fun _ => AttemptOutcome.contention) (fun _ => false) (fun _ => 0) 3
        = AcqResult.timedOut 3750 := by
  refine ⟨by decide, by decide, ?_⟩
  unfold acquireLock
  rw [acquireLoop_step_contention _ _ _ _ _ _ (by norm_num) rfl rfl]
  rw [acquireLoop_step_contention _ _ _ _ _ _ (by norm_num [backoffDelay]) rfl rfl]
  rw [acquireLoop_step_contention _ _ _ _ _ _ (by norm_num [backoffDelay]) rfl rfl]
  rw [acquireLoop_step_contention _ _ _ _ _ _ (by norm_num [backoffDelay]) rfl rfl]
  rw [acquireLoop_step_contention _ _ _ _ _ _ (by norm_num [backoffDelay]) rfl rfl]
  rw [acquireLoop_step_timeout _ _ _ _ _ _ (by norm_num [backoffDelay])]
  norm_num [backoffDelay]

/-- C2 (amended): after each contention failure the loop sleeps exactly
`backoffDelay (attempt + 1) = 250 * (attempt + 1)` ms before the next
attempt — linear backoff with no cap: the sequence of backoff delays is
not bounded by any fixed cap. -/
theorem C2_backoff_linear_uncapped (outcome : Nat → AttemptOutcome)
    (alerted : Nat → Bool) (tryDur : Nat → Nat) (maxWaitMs elapsed attempt : Nat)
    (hlt : elapsed < maxWaitMs) (heq : outcome (attempt + 1) = .contention)
    (halert : alerted (attempt + 1) = false) :
    acquireLoop outcome alerted tryDur maxWaitMs elapsed attempt
        = acquireLoop outcome alerted tryDur maxWaitMs
            (elapsed + tryDur (attempt + 1) + backoffDelay (attempt + 1)) (attempt + 1)
      ∧ backoffDelay (attempt + 1) = 250 * (attempt + 1)
      ∧ ∀ cap, ∃ a, cap < backoffDelay a := by
  refine ⟨acquireLoop_step_contention outcome alerted tryDur maxWaitMs elapsed attempt
    hlt heq halert, rfl, fun cap => ⟨cap + 1, ?_⟩⟩
  simp only [backoffDelay]
  nlinarith

/-- C2 witness: the first contention step of a concrete run sleeps
`backoffDelay 1` ms. -/
theorem C2_backoff_linear_uncapped_witness :
    acquireLoop (fun _ => AttemptOutcome.contention) (fun _ => false) (fun _ => 0) 1000 0 0
        = acquireLoop (fun _ => AttemptOutcome.contention) (fun _ => false) (fun _ => 0) 1000
            (0 + (fun _ => 0) (0 + 1) + backoffDelay (0 + 1)) (0 + 1)
      ∧ backoffDelay (0 + 1) = 250 * (0 + 1)
      ∧ ∀ cap, ∃ a, cap < backoffDelay a :=
  C2_backoff_linear_uncapped (fun _ => AttemptOutcome.contention) (fun _ => false) (fun _ => 0)
    1000 0 0 (by norm_num) rfl rfl

/-- C3 (code evaluated at the failing input): every `lock.lock()` attempt
fails with contention, yet after the `unlock` notification is observed the
code returns the lock object (status `wait-acq`) — no additional
acquisition attempt is made and no attempt ever succeeded, contradicting
"it never returns Held without a successful acquisition attempt". -/
theorem C3_wait_acq_without_acquisition :
    acquireLock (fun _ => AttemptOutcome.contention) (fun _ => true) (fun _ => 0) 30
      = AcqResult.waitAcquired 1 250 := by
  unfold acquireLock
  rw [acquireLoop_step_alerted _ _ _ _ _ _ (by norm_num) rfl rfl]
  norm_num [backoffDelay]

end EtcdModel

namespace EtcdModel

/-! ## JSON values and JS truthiness

`get` returns `JSON.parse` of the stored document (or resolves with no
value when absent); `memoize` branches on the JS truthiness of that
result (`if (value)`). -/

inductive JsonValue
  | null
  | bool (b : Bool)
  | num (n : Int)
  | str (s : String)
  | arr (elems : List JsonValue)
  | obj (fields : List (String × JsonValue))

/-- JS truthiness of a `JSON.parse` result: `null`, `false`, `0` and the
empty string are falsy; every array or object is truthy. -/
def truthy : JsonValue → Bool
  | .null => false
  | .bool b => b
  | .num n => n != 0
  | .str s => !s.isEmpty
  | .arr _ => true
  | .obj _ => true

/-- Truthiness of an optional value (`undefined`/absent is falsy). -/
def optTruthy : Option JsonValue → Bool
  | none => false
  | some v => truthy v

/-! ## Memoize engine (`memoize`)

The store operations `memoize` performs, in order, form its effect trace.
`lockAttempt` is the create-if-absent write microlock's `lock()` issues on
the lock key; `lockRelease` is `releaseLock`'s `unlock()`/`destroy()`
(which removes the lock entry); `renewTimerStart`/`renewTimerCancel` are
the renewal timer's `setTimeout` and the `finally` block's `clearTimeout`
followed by `await lockRenewPromise`. -/

inductive Effect
  | getOp (key : String)
  | lockAttempt (key : String)
  | setOp (key : String) (value : JsonValue) (ttl : Nat)
  | delOp (key : String)
  | lockRelease (key : String)
  | renewTimerStart
  | renewTimerCancel
  | invokeFunc

/-- Result of the inner `acquireLock` call as seen by `memoize`: a lock,
a rethrown non-contention store error, or the timeout error (carrying
`waitTime`). -/
inductive LockOutcome
  | acquired
  | failed (errorCode : Nat)
  | timedOut (waitTimeMs : Nat)

/-- The failures a `memoize` caller can observe: a store error from
`get`/`set`/`acquireLock`, the lock timeout, or the computation's own
error `e : ε` (propagated unchanged). -/
inductive MemoError (ε : Type)
  | store (errorCode : Nat)
  | lockTimeout (waitTimeMs : Nat)
  | compute (e : ε)

/-- Shallow embedding of `memoize(context, key, func, ttl, timeout,
maxWait)`.  The per-round-trip results are inputs: `prelock` and
`postlock` are the two `get(<key>-value)` probes (`.error c` = a store
error with classifier `c`), `lockOutcome` the `acquireLock(<key>-lock)`
call, `funcResult` the computation, `setResult` the cache write.  Returns
the settled result together with the trace of store operations performed
(in order).  The `finally` block cancels the renewal timer, awaits any
in-flight renewal and releases the lock whenever `lock` was set. -/
def memoize {ε : Type} (key : String)
    (prelock : Except Nat (Option JsonValue))
    (lockOutcome : LockOutcome)
    (postlock : Except Nat (Option JsonValue))
    (funcResult : Except ε JsonValue)
    (setResult : Except Nat Unit)
    (ttl : Nat) :
    Except (MemoError ε) JsonValue × List Effect :=
  let valueKey := key ++ "-value"
  let lockKey := key ++ "-lock"
  match prelock with
  | .error c => (.error (.store c), [.getOp valueKey])
  | .ok pre =>
    if optTruthy pre then
      -- status 'val-prelock': return the cached value, no lock taken
      (.ok (pre.getD .null), [.getOp valueKey])
    else
      match lockOutcome with
      | .failed c => (.error (.store c), [.getOp valueKey, .lockAttempt lockKey])
      | .timedOut w => (.error (.lockTimeout w), [.getOp valueKey, .lockAttempt lockKey])
      | .acquired =>
        match postlock with
        | .error c =>
          (.error (.store c),
            [.getOp valueKey, .lockAttempt lockKey, .getOp valueKey, .lockRelease lockKey])
        | .ok post =>
          if optTruthy post then
            -- status 'val-postlock'
            (.ok (post.getD .null),
              [.getOp valueKey, .lockAttempt lockKey, .getOp valueKey, .lockRelease lockKey])
          else
            match funcResult with
            | .error e =>
              (.error (.compute e),
                [.getOp valueKey, .lockAttempt lockKey, .getOp valueKey,
                  .renewTimerStart, .invokeFunc, .renewTimerCancel, .lockRelease lockKey])
            | .ok fv =>
              -- value = (await func()) || {}
              let value := if truthy fv then fv else .obj []
              if ttl != 0 then
                match setResult with
                | .error c =>
                  (.error (.store c),
                    [.getOp valueKey, .lockAttempt lockKey, .getOp valueKey,
                      .renewTimerStart, .invokeFunc, .setOp valueKey value ttl,
                      .renewTimerCancel, .lockRelease lockKey])
                | .ok _ =>
                  -- status 'val-eval'
                  (.ok value,
                    [.getOp valueKey, .lockAttempt lockKey, .getOp valueKey,
                      .renewTimerStart, .invokeFunc, .setOp valueKey value ttl,
                      .renewTimerCancel, .lockRelease lockKey])
              else
                (.ok value,
                  [.getOp valueKey, .lockAttempt lockKey, .getOp valueKey,
                    .renewTimerStart, .invokeFunc, .renewTimerCancel, .lockRelease lockKey])

/-! ## Sequential store semantics for memoize

For claims about back-to-back `memoize` calls by a single caller we
interpret the effect trace against an association-list store. -/

def storeGet (store : List (String × JsonValue)) (k : String) : Option JsonValue :=
  (store.find? (fun p => p.1 == k)).map (fun p => p.2)

def applyEffect (store : List (String × JsonValue)) : Effect → List (String × JsonValue)
  | .setOp k v _ => (k, v) :: store.filter (fun p => p.1 != k)
  | .delOp k => store.filter (fun p => p.1 != k)
  | .lockAttempt k => (k, .str "lock-holder") :: store.filter (fun p => p.1 != k)
  | .lockRelease k => store.filter (fun p => p.1 != k)
  | .getOp _ => store
  | .renewTimerStart => store
  | .renewTimerCancel => store
  | .invokeFunc => store

/-- One `memoize` call by a single caller with no concurrent contender:
both probes read the current store (nothing intervenes between them — the
only effect in between targets the lock key), the lock acquisition and
the cache write succeed.  Returns the memoize result (with trace) and the
store after the call. -/
def memoizeSeq {ε : Type} (store : List (String × JsonValue)) (key : String)
    (funcResult : Except ε JsonValue) (ttl : Nat) :
    (Except (MemoError ε) JsonValue × List Effect) × List (String × JsonValue) :=
  let pre := storeGet store (key ++ "-value")
  let r := memoize key (.ok pre) .acquired (.ok pre) funcResult (.ok ()) ttl
  (r, r.2.foldl applyEffect store)

theorem valueKey_ne_lockKey (key : String) :
    ((key ++ "-value") == (key ++ "-lock")) = false := by
  apply beq_eq_false_iff_ne.mpr
  intro h
  have h2 : (key ++ "-value").data = (key ++ "-lock").data := by rw [h]
  rw [String.data_append, String.data_append] at h2
  exact absurd (List.append_cancel_left h2) (by decide)

end EtcdModel

namespace EtcdModel

/-! ## Claim C4 -/

/-- C4 (counterexample): a value that is *present* at the pre-lock probe
but JS-falsy (here the cached JSON document `0`) is not returned: the code
tests truthiness (`if (value)`), so it acquires the lock, invokes `func`
and returns the computed value instead of the cached one. -/
theorem C4_present_falsy_value_not_returned :
    memoize (ε := Unit) "k" (.ok (some (.num 0))) .acquired (.ok (some (.num 0)))
        (.ok (.str "x")) (.ok ()) 300
      = (.ok (.str "x"),
          [.getOp "k-value", .lockAttempt "k-lock", .getOp "k-value",
            .renewTimerStart, .invokeFunc, .setOp "k-value" (.str "x") 300,
            .renewTimerCancel, .lockRelease "k-lock"]) := rfl

theorem lockKey_ne_valueKey (key : String) :
    ((key ++ "-lock") == (key ++ "-value")) = false := by
  apply beq_eq_false_iff_ne.mpr
  intro h
  have h2 : (key ++ "-lock").data = (key ++ "-value").data := by rw [h]
  rw [String.data_append, String.data_append] at h2
  exact absurd (List.append_cancel_left h2) (by decide)

/-- Fast path of `memoize`: a truthy pre-lock probe result is returned as
is; the only store operation is that read. -/
theorem memoize_hit {ε : Type} (key : String) (pre : Option JsonValue)
    (L : LockOutcome) (P : Except Nat (Option JsonValue)) (F : Except ε JsonValue)
    (S : Except Nat Unit) (ttl : Nat) (h : optTruthy pre = true) :
    memoize key (.ok pre) L P F S ttl
      = (.ok (pre.getD .null), [.getOp (key ++ "-value")]) := by
  simp [memoize, h]

/-- Compute path of `memoize` with nonzero `ttl` and a successful write:
the normalized value is cached at `<key>-value` with that `ttl`. -/
theorem memoize_compute_ok {ε : Type} (key : String) (pre post : Option JsonValue)
    (fv : JsonValue) (ttl : Nat)
    (hpre : optTruthy pre = false) (hpost : optTruthy post = false) (httl : ttl ≠ 0) :
    memoize (ε := ε) key (.ok pre) .acquired (.ok post) (.ok fv) (.ok ()) ttl
      = (.ok (if truthy fv then fv else .obj []),
          [.getOp (key ++ "-value"), .lockAttempt (key ++ "-lock"), .getOp (key ++ "-value"),
            .renewTimerStart, .invokeFunc,
            .setOp (key ++ "-value") (if truthy fv then fv else .obj []) ttl,
            .renewTimerCancel, .lockRelease (key ++ "-lock")]) := by
  simp [memoize, hpre, hpost, httl]

/-- Replaying the compute-path trace against the store leaves the computed
value at `<key>-value` (the lock entry is created and removed again). -/
theorem storeGet_after_compute (store : List (String × JsonValue)) (key : String)
    (value : JsonValue) (ttl : Nat) :
    storeGet
      (List.foldl applyEffect store
        [.getOp (key ++ "-value"), .lockAttempt (key ++ "-lock"), .getOp (key ++ "-value"),
          .renewTimerStart, .invokeFunc,
          .setOp (key ++ "-value") value ttl,
          .renewTimerCancel, .lockRelease (key ++ "-lock")])
      (key ++ "-value") = some value := by
  simp [applyEffect, storeGet, List.find?, List.filter, bne,
    valueKey_ne_lockKey, lockKey_ne_valueKey]

/-- The normalization `(await func()) || {}` always yields a truthy value. -/
theorem truthy_normalized (v : JsonValue) :
    truthy (if truthy v then v else .obj []) = true := by
  by_cases hv : truthy v
  · rw [if_pos hv]; exact hv
  · rw [if_neg hv]; rfl

/-- C4 (amended): (a) if the pre-lock probe returns a *truthy* cached
value, `memoize` returns it immediately — its only store operation is that
one read: no lock is taken and `func` is not invoked; (b) after one
successful `memoize(k, fn)` with nonzero `ttl` populates the cache, a
subsequent `memoize(k, fn2)` on the same key returns the first call's
result and performs only the pre-lock read — `fn2` is never invoked.
(The amendment: "present" must be strengthened to "present and truthy";
a present falsy value is treated as a miss, see the counterexample.) -/
theorem C4_cache_hit_before_lock_and_reuse :
    (∀ (ε : Type) (key : String) (v : JsonValue) (L : LockOutcome)
        (P : Except Nat (Option JsonValue)) (F : Except ε JsonValue)
        (S : Except Nat Unit) (ttl : Nat), truthy v = true →
      memoize key (.ok (some v)) L P F S ttl = (.ok v, [.getOp (key ++ "-value")]))
    ∧ (∀ (ε ε₂ : Type) (key : String) (store : List (String × JsonValue))
        (v1 : JsonValue) (f2 : Except ε₂ JsonValue) (ttl : Nat),
        storeGet store (key ++ "-value") = none → ttl ≠ 0 →
        (memoizeSeq store key (Except.ok (ε := ε) v1) ttl).1.1
            = .ok (if truthy v1 then v1 else .obj [])
          ∧ (memoizeSeq (memoizeSeq store key (Except.ok (ε := ε) v1) ttl).2 key f2 ttl).1
            = (.ok (if truthy v1 then v1 else .obj []), [.getOp (key ++ "-value")])) := by
  constructor
  · intro ε key v L P F S ttl hv
    rw [memoize_hit key (some v) L P F S ttl (by simp [optTruthy, hv])]
    rfl
  · intro ε ε₂ key store v1 f2 ttl hpre httl
    have h1 : memoizeSeq store key (Except.ok (ε := ε) v1) ttl
        = (memoize (ε := ε) key (.ok none) .acquired (.ok none) (.ok v1) (.ok ()) ttl,
            List.foldl applyEffect store
              (memoize (ε := ε) key (.ok none) .acquired (.ok none) (.ok v1) (.ok ()) ttl).2) := by
      simp only [memoizeSeq, hpre]
    rw [memoize_compute_ok key none none v1 ttl rfl rfl httl] at h1
    constructor
    · rw [h1]
    · rw [h1]
      have h2 := storeGet_after_compute store key (if truthy v1 then v1 else .obj []) ttl
      simp only [memoizeSeq, h2]
      rw [memoize_hit key (some (if truthy v1 then v1 else .obj [])) .acquired
        (.ok (some (if truthy v1 then v1 else .obj []))) f2 (.ok ()) ttl
        (by simp [optTruthy, truthy_normalized])]
      rfl

/-- C4 witness: concrete instantiations of both conjuncts. -/
theorem C4_cache_hit_before_lock_and_reuse_witness :
    memoize (ε := Unit) "k" (.ok (some (.str "cached"))) .acquired (.ok none)
        (.ok (.str "y")) (.ok ()) 300
      = (.ok (.str "cached"), [.getOp ("k" ++ "-value")])
    ∧ ((memoizeSeq [] "k" (Except.ok (ε := Unit) (JsonValue.str "v1")) 300).1.1
          = .ok (if truthy (.str "v1") then .str "v1" else .obj [])
        ∧ (memoizeSeq (memoizeSeq [] "k" (Except.ok (ε := Unit) (JsonValue.str "v1")) 300).2
              "k" (Except.ok (ε := Unit) (JsonValue.str "v2")) 300).1
          = (.ok (if truthy (.str "v1") then .str "v1" else .obj []),
              [.getOp ("k" ++ "-value")])) :=
  ⟨C4_cache_hit_before_lock_and_reuse.1 Unit "k" (.str "cached") .acquired (.ok none)
      (.ok (.str "y")) (.ok ()) 300 rfl,
    C4_cache_hit_before_lock_and_reuse.2 Unit Unit "k" [] (.str "v1")
      (Except.ok (.str "v2")) 300 rfl (by norm_num)⟩

end EtcdModel

namespace EtcdModel

/-! ## Claim C5 -/

/-- Compute path of `memoize` with `ttl = 0`: the write is skipped. -/
theorem memoize_compute_zero_ttl {ε : Type} (key : String) (pre post : Option JsonValue)
    (fv : JsonValue) (S : Except Nat Unit)
    (hpre : optTruthy pre = false) (hpost : optTruthy post = false) :
    memoize (ε := ε) key (.ok pre) .acquired (.ok post) (.ok fv) S 0
      = (.ok (if truthy fv then fv else .obj []),
          [.getOp (key ++ "-value"), .lockAttempt (key ++ "-lock"), .getOp (key ++ "-value"),
            .renewTimerStart, .invokeFunc, .renewTimerCancel, .lockRelease (key ++ "-lock")]) := by
  simp [memoize, hpre, hpost]

/-- C5: on the compute path (both probes miss, lock acquired, `func`
succeeds), if `ttl ≠ 0` the normalized value is written to `<key>-value`
with exactly that `ttl` during the call (before the result is returned),
and the same value is returned; if `ttl = 0` no `set` is performed at all
and the computed value is still returned. -/
theorem C5_ttl_gates_cache_write :
    ∀ (ε : Type) (key : String) (pre post : Option JsonValue) (fv : JsonValue),
      optTruthy pre = false → optTruthy post = false →
      (∀ ttl : Nat, ttl ≠ 0 →
        memoize (ε := ε) key (.ok pre) .acquired (.ok post) (.ok fv) (.ok ()) ttl
          = (.ok (if truthy fv then fv else .obj []),
              [.getOp (key ++ "-value"), .lockAttempt (key ++ "-lock"),
                .getOp (key ++ "-value"), .renewTimerStart, .invokeFunc,
                .setOp (key ++ "-value") (if truthy fv then fv else .obj []) ttl,
                .renewTimerCancel, .lockRelease (key ++ "-lock")]))
      ∧ memoize (ε := ε) key (.ok pre) .acquired (.ok post) (.ok fv) (.ok ()) 0
          = (.ok (if truthy fv then fv else .obj []),
              [.getOp (key ++ "-value"), .lockAttempt (key ++ "-lock"),
                .getOp (key ++ "-value"), .renewTimerStart, .invokeFunc,
                .renewTimerCancel, .lockRelease (key ++ "-lock")])
      ∧ ∀ (k : String) (v : JsonValue) (t : Nat),
          Effect.setOp k v t
            ∉ (memoize (ε := ε) key (.ok pre) .acquired (.ok post) (.ok fv) (.ok ()) 0).2 := by
  intro ε key pre post fv hpre hpost
  refine ⟨fun ttl httl => memoize_compute_ok key pre post fv ttl hpre hpost httl,
    memoize_compute_zero_ttl key pre post fv (.ok ()) hpre hpost, fun k v t => ?_⟩
  rw [memoize_compute_zero_ttl key pre post fv (.ok ()) hpre hpost]
  simp

/-- C5 witness: concrete compute-path run with `ttl = 7` and `ttl = 0`. -/
theorem C5_ttl_gates_cache_write_witness :
    (∀ ttl : Nat, ttl ≠ 0 →
      memoize (ε := Unit) "k" (.ok none) .acquired (.ok none) (.ok (.str "x")) (.ok ()) ttl
        = (.ok (if truthy (.str "x") then .str "x" else .obj []),
            [.getOp ("k" ++ "-value"), .lockAttempt ("k" ++ "-lock"),
              .getOp ("k" ++ "-value"), .renewTimerStart, .invokeFunc,
              .setOp ("k" ++ "-value") (if truthy (.str "x") then .str "x" else .obj []) ttl,
              .renewTimerCancel, .lockRelease ("k" ++ "-lock")]))
    ∧ memoize (ε := Unit) "k" (.ok none) .acquired (.ok none) (.ok (.str "x")) (.ok ()) 0
        = (.ok (if truthy (.str "x") then .str "x" else .obj []),
            [.getOp ("k" ++ "-value"), .lockAttempt ("k" ++ "-lock"),
              .getOp ("k" ++ "-value"), .renewTimerStart, .invokeFunc,
              .renewTimerCancel, .lockRelease ("k" ++ "-lock")])
    ∧ ∀ (k : String) (v : JsonValue) (t : Nat),
        Effect.setOp k v t
          ∉ (memoize (ε := Unit) "k" (.ok none) .acquired (.ok none) (.ok (.str "x"))
              (.ok ()) 0).2 :=
  C5_ttl_gates_cache_write Unit "k" none none (.str "x") rfl rfl

/-! ## Claim C6 -/

/-- Compute path of `memoize` when `func` throws. -/
theorem memoize_compute_throws {ε : Type} (key : String) (pre post : Option JsonValue)
    (e : ε) (S : Except Nat Unit) (ttl : Nat)
    (hpre : optTruthy pre = false) (hpost : optTruthy post = false) :
    memoize key (.ok pre) .acquired (.ok post) (Except.error e) S ttl
      = (.error (.compute e),
          [.getOp (key ++ "-value"), .lockAttempt (key ++ "-lock"), .getOp (key ++ "-value"),
            .renewTimerStart, .invokeFunc, .renewTimerCancel, .lockRelease (key ++ "-lock")]) := by
  simp [memoize, hpre, hpost]

/-- C6: when the computation throws `e`, nothing is written to
`<key>-value` (the trace has no `set` at all), the error propagates to
the caller as exactly `.compute e`, and the trace shows cleanup running
after `func` and before the failure is surfaced: the renewal-timer
cancellation (`clearTimeout` plus `await lockRenewPromise`) followed by
the lock release.  Moreover on *every* exit path entered with the lock
acquired, the final store operation is the lock release. -/
theorem C6_compute_failure_cleanup :
    ∀ (ε : Type) (key : String) (pre post : Option JsonValue) (e : ε)
      (S : Except Nat Unit) (ttl : Nat),
      optTruthy pre = false → optTruthy post = false →
      memoize key (.ok pre) .acquired (.ok post) (Except.error e) S ttl
          = (.error (.compute e),
              [.getOp (key ++ "-value"), .lockAttempt (key ++ "-lock"),
                .getOp (key ++ "-value"), .renewTimerStart, .invokeFunc,
                .renewTimerCancel, .lockRelease (key ++ "-lock")])
        ∧ (∀ (k : String) (v : JsonValue) (t : Nat),
            Effect.setOp k v t
              ∉ (memoize key (.ok pre) .acquired (.ok post) (Except.error e) S ttl).2)
        ∧ (∀ (P2 : Except Nat (Option JsonValue)) (F2 : Except ε JsonValue)
            (S2 : Except Nat Unit) (t2 : Nat),
            (memoize key (.ok pre) .acquired P2 F2 S2 t2).2.getLast?
              = some (.lockRelease (key ++ "-lock"))) := by
  intro ε key pre post e S ttl hpre hpost
  refine ⟨memoize_compute_throws key pre post e S ttl hpre hpost, fun k v t => ?_, ?_⟩
  · rw [memoize_compute_throws key pre post e S ttl hpre hpost]
    simp
  · intro P2 F2 S2 t2
    rcases P2 with c | post2
    · simp [memoize, hpre]
    · by_cases h2 : optTruthy post2
      · simp [memoize, hpre, h2]
      · rcases F2 with e2 | fv2
        · simp [memoize, hpre, h2]
        · rcases S2 with c2 | u
          · by_cases ht : t2 = 0 <;> simp [memoize, hpre, h2, ht]
          · by_cases ht : t2 = 0 <;> simp [memoize, hpre, h2, ht]

/-- C6 witness: concrete failing computation with `ttl = 300`. -/
theorem C6_compute_failure_cleanup_witness :
    memoize "k" (.ok none) .acquired (.ok none) (Except.error 42) (.ok ()) 300
        = (.error (.compute 42),
            [.getOp ("k" ++ "-value"), .lockAttempt ("k" ++ "-lock"),
              .getOp ("k" ++ "-value"), .renewTimerStart, .invokeFunc,
              .renewTimerCancel, .lockRelease ("k" ++ "-lock")])
      ∧ (∀ (k : String) (v : JsonValue) (t : Nat),
          Effect.setOp k v t
            ∉ (memoize "k" (.ok none) .acquired (.ok none) (Except.error 42) (.ok ()) 300).2)
      ∧ (∀ (P2 : Except Nat (Option JsonValue)) (F2 : Except Nat JsonValue)
          (S2 : Except Nat Unit) (t2 : Nat),
          (memoize "k" (.ok none) .acquired P2 F2 S2 t2).2.getLast?
            = some (.lockRelease ("k" ++ "-lock"))) :=
  C6_compute_failure_cleanup Nat "k" none none 42 (.ok ()) 300 rfl rfl

/-! ## Claim C10 -/

/-- The store-write discipline claimed for `memoize`: value writes may
target only `<key>-value`, lock writes and releases only `<key>-lock`,
and nothing may be deleted; reads, timer operations and the computation
itself are unrestricted. -/
def allowedWrite (key : String) : Effect → Bool
  | .setOp k _ _ => k == key ++ "-value"
  | .delOp _ => false
  | .lockAttempt k => k == key ++ "-lock"
  | .lockRelease k => k == key ++ "-lock"
  | .getOp _ => true
  | .renewTimerStart => true
  | .renewTimerCancel => true
  | .invokeFunc => true

/-- C10: on every path of `memoize`, every store write in the trace
targets one of the two derived keys (`<key>-value` for `set`,
`<key>-lock` for the lock create/release) and no delete is ever issued;
moreover the caller's bare key differs from both derived keys, so it is
never written. -/
theorem C10_memoize_write_frame :
    ∀ (ε : Type) (key : String) (prelock : Except Nat (Option JsonValue))
      (L : LockOutcome) (postlock : Except Nat (Option JsonValue))
      (F : Except ε JsonValue) (S : Except Nat Unit) (ttl : Nat),
      (memoize key prelock L postlock F S ttl).2.all (allowedWrite key) = true
        ∧ (key == key ++ "-value") = false
        ∧ (key == key ++ "-lock") = false := by
  intro ε key prelock L postlock F S ttl
  refine ⟨?_, ?_, ?_⟩
  · rcases prelock with c | pre
    · simp [memoize, allowedWrite]
    · by_cases h1 : optTruthy pre
      · simp [memoize, allowedWrite, h1]
      · rcases L with _ | c | w
        · rcases postlock with c | post
          · simp [memoize, allowedWrite, h1]
          · by_cases h2 : optTruthy post
            · simp [memoize, allowedWrite, h1, h2]
            · rcases F with e | fv
              · simp [memoize, allowedWrite, h1, h2]
              · rcases S with c | u
                · by_cases ht : ttl = 0 <;> simp [memoize, allowedWrite, h1, h2, ht]
                · by_cases ht : ttl = 0 <;> simp [memoize, allowedWrite, h1, h2, ht]
        · simp [memoize, allowedWrite, h1]
        · simp [memoize, allowedWrite, h1]
  · apply beq_eq_false_iff_ne.mpr
    intro h
    have h2 : key.data ++ [] = (key ++ "-value").data := by
      rw [← h, List.append_nil]
    rw [String.data_append] at h2
    exact absurd (List.append_cancel_left h2) (by decide)
  · apply beq_eq_false_iff_ne.mpr
    intro h
    have h2 : key.data ++ [] = (key ++ "-lock").data := by
      rw [← h, List.append_nil]
    rw [String.data_append] at h2
    exact absurd (List.append_cancel_left h2) (by decide)

end EtcdModel

namespace EtcdModel

/-! ## JSON serialization (`JSON.stringify` / `JSON.parse`)

`set` submits `JSON.stringify(value)`; `get` returns
`JSON.parse(value.node.value)`.  We model the JSON grammar that
`JSON.stringify` emits for JSON-serializable documents (numbers
restricted to integers — the float formatting of JS numbers is out of
scope of this embedding) and a recursive-descent reader for it, fuelled
by the input length. -/

def quoteChar : Char := Char.ofNat 34
def backslashChar : Char := Char.ofNat 92
def lbraceChar : Char := Char.ofNat 123
def rbraceChar : Char := Char.ofNat 125

def isDigitChar (c : Char) : Bool := 48 ≤ c.toNat && c.toNat ≤ 57

def digitChar (d : Nat) : Char :=
  if d = 0 then '0' else if d = 1 then '1' else if d = 2 then '2' else if d = 3 then '3'
  else if d = 4 then '4' else if d = 5 then '5' else if d = 6 then '6'
  else if d = 7 then '7' else if d = 8 then '8' else '9'

def hexDigitChar (d : Nat) : Char :=
  if d < 10 then digitChar d
  else if d = 10 then 'a' else if d = 11 then 'b' else if d = 12 then 'c'
  else if d = 13 then 'd' else if d = 14 then 'e' else 'f'

def parseHexDigit (c : Char) : Option Nat :=
  if 48 ≤ c.toNat ∧ c.toNat ≤ 57 then some (c.toNat - 48)
  else if 97 ≤ c.toNat ∧ c.toNat ≤ 102 then some (c.toNat - 87)
  else if 65 ≤ c.toNat ∧ c.toNat ≤ 70 then some (c.toNat - 55)
  else none

/-- Decimal digits of `n`, most significant first. -/
def printNat (n : Nat) : List Char :=
  if _h : n < 10 then [digitChar n]
  else printNat (n / 10) ++ [digitChar (n % 10)]
termination_by n
decreasing_by
  exact Nat.div_lt_self (by omega) (by omega)

/-- `JSON.stringify` of an integral JS number. -/
def printInt : Int → List Char
  | .ofNat n => printNat n
  | .negSucc m => '-' :: printNat (m + 1)

/-- The `\u00xx` escape `JSON.stringify` uses for the control characters
that have no two-character escape. -/
def controlEscape (n : Nat) : List Char :=
  [backslashChar, 'u', '0', '0', hexDigitChar (n / 16), hexDigitChar (n % 16)]

/-- The string escaping `JSON.stringify` applies per code unit: quote and
backslash, the two-character escapes for backspace, tab, newline, form
feed and carriage return, `\u00xx` for the remaining control characters,
and all other characters verbatim. -/
def escapeChar (c : Char) : List Char :=
  if c = quoteChar then [backslashChar, quoteChar]
  else if c = backslashChar then [backslashChar, backslashChar]
  else if c = Char.ofNat 8 then [backslashChar, 'b']
  else if c = Char.ofNat 9 then [backslashChar, 't']
  else if c = Char.ofNat 10 then [backslashChar, 'n']
  else if c = Char.ofNat 12 then [backslashChar, 'f']
  else if c = Char.ofNat 13 then [backslashChar, 'r']
  else if c.toNat < 32 then controlEscape c.toNat
  else [c]

def escapeList : List Char → List Char
  | [] => []
  | c :: cs => escapeChar c ++ escapeList cs

def printString (s : String) : List Char :=
  quoteChar :: escapeList s.data ++ [quoteChar]

/-- The keyword spellings of the three JSON literals. -/
def nullChars : List Char := ['n', 'u', 'l', 'l']

def trueChars : List Char := ['t', 'r', 'u', 'e']

def falseChars : List Char := ['f', 'a', 'l', 's', 'e']

mutual

/-- The characters `JSON.stringify` emits for a document. -/
def printValue : JsonValue → List Char
  | .null => nullChars
  | .bool true => trueChars
  | .bool false => falseChars
  | .num n => printInt n
  | .str s => printString s
  | .arr [] => ['[', ']']
  | .arr (x :: xs) => '[' :: printElems x xs ++ [']']
  | .obj [] => [lbraceChar, rbraceChar]
  | .obj (f :: fs) => lbraceChar :: printFields f fs ++ [rbraceChar]
termination_by v => sizeOf v

def printElems : JsonValue → List JsonValue → List Char
  | x, [] => printValue x
  | x, y :: ys => printValue x ++ ',' :: printElems y ys
termination_by x xs => sizeOf x + sizeOf xs

def printFields : (String × JsonValue) → List (String × JsonValue) → List Char
  | (k, v), [] => printString k ++ ':' :: printValue v
  | (k, v), f :: fs => printString k ++ ':' :: printValue v ++ ',' :: printFields f fs
termination_by f fs => sizeOf f + sizeOf fs

end

/-- Reads a JSON string body (after the opening quote) up to and past the
closing quote, undoing the escapes. -/
def parseStringBody : List Char → Option (List Char × List Char)
  | [] => none
  | c :: rest =>
    if c = quoteChar then some ([], rest)
    else if c = backslashChar then
      match rest with
      | [] => none
      | e :: rest2 =>
        if e = 'u' then
          match rest2 with
          | h1 :: h2 :: h3 :: h4 :: rest3 =>
            match parseHexDigit h1, parseHexDigit h2, parseHexDigit h3, parseHexDigit h4 with
            | some a, some b, some c2, some d2 =>
              (parseStringBody rest3).map
                (fun p => (Char.ofNat (((a * 16 + b) * 16 + c2) * 16 + d2) :: p.1, p.2))
            | _, _, _, _ => none
          | _ => none
        else
          match unescapeChar e with
          | some u => (parseStringBody rest2).map (fun p => (u :: p.1, p.2))
          | none => none
    else
      (parseStringBody rest).map (fun p => (c :: p.1, p.2))
where
  unescapeChar (e : Char) : Option Char :=
    if e = quoteChar then some quoteChar
    else if e = backslashChar then some backslashChar
    else if e = '/' then some '/'
    else if e = 'b' then some (Char.ofNat 8)
    else if e = 'f' then some (Char.ofNat 12)
    else if e = 'n' then some (Char.ofNat 10)
    else if e = 'r' then some (Char.ofNat 13)
    else if e = 't' then some (Char.ofNat 9)
    else none

/-- Reads a run of decimal digits, folding them onto `acc`; stops at the
first non-digit. -/
def parseDigits : List Char → Nat → Nat × List Char
  | [], acc => (acc, [])
  | c :: rest, acc =>
    if isDigitChar c then parseDigits rest (acc * 10 + (c.toNat - 48))
    else (acc, c :: rest)

mutual

def parseValue : Nat → List Char → Option (JsonValue × List Char)
  | 0, _ => none
  | Nat.succ _, [] => none
  | Nat.succ fuel, c :: rest =>
    if c = 'n' then
      match rest with
      | 'u' :: 'l' :: 'l' :: r => some (.null, r)
      | _ => none
    else if c = 't' then
      match rest with
      | 'r' :: 'u' :: 'e' :: r => some (.bool true, r)
      | _ => none
    else if c = 'f' then
      match rest with
      | 'a' :: 'l' :: 's' :: 'e' :: r => some (.bool false, r)
      | _ => none
    else if c = quoteChar then
      match parseStringBody rest with
      | some (cs, r) => some (.str ⟨cs⟩, r)
      | none => none
    else if c = '-' then
      match rest with
      | d :: rest2 =>
        if isDigitChar d then
          let p := parseDigits (d :: rest2) 0
          some (.num (-(p.1 : Int)), p.2)
        else none
      | [] => none
    else if isDigitChar c then
      let p := parseDigits (c :: rest) 0
      some (.num (p.1 : Int), p.2)
    else if c = '[' then
      match rest with
      | d :: rest2 =>
        if d = ']' then some (.arr [], rest2)
        else
          match parseElems fuel (d :: rest2) with
          | some (vs, r) => some (.arr vs, r)
          | none => none
      | [] => none
    else if c = lbraceChar then
      match rest with
      | d :: rest2 =>
        if d = rbraceChar then some (.obj [], rest2)
        else
          match parseFields fuel (d :: rest2) with
          | some (fs, r) => some (.obj fs, r)
          | none => none
      | [] => none
    else none

def parseElems : Nat → List Char → Option (List JsonValue × List Char)
  | 0, _ => none
  | Nat.succ fuel, input =>
    match parseValue fuel input with
    | some (v, r) =>
      match r with
      | d :: r2 =>
        if d = ',' then
          match parseElems fuel r2 with
          | some (vs, r3) => some (v :: vs, r3)
          | none => none
        else if d = ']' then some ([v], r2)
        else none
      | [] => none
    | none => none

def parseFields : Nat → List Char → Option (List (String × JsonValue) × List Char)
  | 0, _ => none
  | Nat.succ fuel, input =>
    match input with
    | c :: rest =>
      if c = quoteChar then
        match parseStringBody rest with
        | some (kcs, r1) =>
          match r1 with
          | colon :: r2 =>
            if colon = ':' then
              match parseValue fuel r2 with
              | some (v, r3) =>
                match r3 with
                | d :: r4 =>
                  if d = ',' then
                    match parseFields fuel r4 with
                    | some (fs, r5) => some ((⟨kcs⟩, v) :: fs, r5)
                    | none => none
                  else if d = rbraceChar then some ([(⟨kcs⟩, v)], r4)
                  else none
                | [] => none
              | none => none
            else none
          | [] => none
        | none => none
      else none
    | [] => none

end

/-- `JSON.stringify`. -/
def stringify (v : JsonValue) : String := ⟨printValue v⟩

/-- `JSON.parse`: the whole input must be a single document. -/
def parseJson (s : String) : Option JsonValue :=
  match parseValue (s.data.length + 1) s.data with
  | some (v, []) => some v
  | _ => none

end EtcdModel

namespace EtcdModel

/-! ### Round-trip correctness of the JSON reader on printed output -/

/-- No leading decimal digit (delimiter condition after a printed number). -/
def noDigitStart : List Char → Bool
  | [] => true
  | c :: _ => !isDigitChar c

theorem digitRound : ∀ d, d < 10 →
    isDigitChar (digitChar d) = true ∧ (digitChar d).toNat - 48 = d := by decide

theorem hexRound : ∀ d, d < 16 → parseHexDigit (hexDigitChar d) = some d := by decide

theorem parseDigits_stop (rest : List Char) (acc : Nat) (h : noDigitStart rest = true) :
    parseDigits rest acc = (acc, rest) := by
  cases rest with
  | nil => rfl
  | cons c tl =>
    simp only [noDigitStart, Bool.not_eq_true'] at h
    simp [parseDigits, h]

theorem printNat_cons (n : Nat) :
    ∃ c cs, printNat n = c :: cs ∧ isDigitChar c = true := by
  induction n using Nat.strong_induction_on with
  | _ n ih =>
    rw [printNat]
    by_cases h : n < 10
    · exact ⟨digitChar n, [], by rw [dif_pos h], (digitRound n h).1⟩
    · obtain ⟨c, cs, hpn, hdig⟩ := ih (n / 10) (Nat.div_lt_self (by omega) (by omega))
      refine ⟨c, cs ++ [digitChar (n % 10)], ?_, hdig⟩
      rw [dif_neg h, hpn]
      rfl

theorem parseDigits_printNat (n : Nat) : ∀ (acc : Nat) (rest : List Char),
    parseDigits (printNat n ++ rest) acc
      = parseDigits rest (acc * 10 ^ (printNat n).length + n) := by
  induction n using Nat.strong_induction_on with
  | _ n ih =>
    intro acc rest
    rw [printNat]
    by_cases h : n < 10
    · rw [dif_pos h]
      simp only [List.singleton_append, List.length_singleton]
      rw [parseDigits.eq_def]
      simp only [if_pos (digitRound n h).1, (digitRound n h).2]
      norm_num
    · rw [dif_neg h]
      rw [List.append_assoc]
      rw [ih (n / 10) (Nat.div_lt_self (by omega) (by omega)) acc
        ([digitChar (n % 10)] ++ rest)]
      simp only [List.singleton_append]
      rw [parseDigits.eq_def]
      have hm : n % 10 < 10 := Nat.mod_lt _ (by omega)
      simp only [if_pos (digitRound (n % 10) hm).1, (digitRound (n % 10) hm).2]
      congr 1
      simp only [List.length_append, List.length_singleton]
      rw [pow_succ]
      ring_nf
      omega

end EtcdModel

namespace EtcdModel

theorem parseStringBody_escape (cs : List Char) : ∀ (rest : List Char),
    parseStringBody (escapeList cs ++ (quoteChar :: rest)) = some (cs, rest) := by
  induction cs with
  | nil =>
    intro rest
    rw [escapeList, List.nil_append, parseStringBody.eq_def]
    simp
  | cons c cs ih =>
    intro rest
    simp only [escapeList, List.append_assoc]
    rw [escapeChar]
    by_cases h1 : c = quoteChar
    · subst h1
      simp only [List.cons_append, List.nil_append]
      rw [parseStringBody.eq_def]
      simp [parseStringBody.unescapeChar, quoteChar, backslashChar]
      exact ih rest
    · rw [if_neg h1]
      by_cases h2 : c = backslashChar
      · subst h2
        simp only [List.cons_append, List.nil_append]
        rw [parseStringBody.eq_def]
        simp [parseStringBody.unescapeChar, quoteChar, backslashChar]
        exact ih rest
      · rw [if_neg h2]
        by_cases h3 : c = Char.ofNat 8
        · subst h3
          simp only [List.cons_append, List.nil_append]
          rw [parseStringBody.eq_def]
          simp [parseStringBody.unescapeChar, quoteChar, backslashChar]
          exact ih rest
        · rw [if_neg h3]
          by_cases h4 : c = Char.ofNat 9
          · subst h4
            simp only [List.cons_append, List.nil_append]
            rw [parseStringBody.eq_def]
            simp [parseStringBody.unescapeChar, quoteChar, backslashChar]
            exact ih rest
          · rw [if_neg h4]
            by_cases h5 : c = Char.ofNat 10
            · subst h5
              simp only [List.cons_append, List.nil_append]
              rw [parseStringBody.eq_def]
              simp [parseStringBody.unescapeChar, quoteChar, backslashChar]
              exact ih rest
            · rw [if_neg h5]
              by_cases h6 : c = Char.ofNat 12
              · subst h6
                simp only [List.cons_append, List.nil_append]
                rw [parseStringBody.eq_def]
                simp [parseStringBody.unescapeChar, quoteChar, backslashChar]
                exact ih rest
              · rw [if_neg h6]
                by_cases h7 : c = Char.ofNat 13
                · subst h7
                  simp only [List.cons_append, List.nil_append]
                  rw [parseStringBody.eq_def]
                  simp [parseStringBody.unescapeChar, quoteChar, backslashChar]
                  exact ih rest
                · rw [if_neg h7]
                  by_cases h8 : c.toNat < 32
                  · rw [if_pos h8]
                    have hhi : c.toNat / 16 < 16 := by omega
                    have hlo : c.toNat % 16 < 16 := Nat.mod_lt _ (by omega)
                    have h0 : parseHexDigit '0' = some 0 := by decide
                    simp only [controlEscape, List.cons_append, List.nil_append]
                    rw [parseStringBody.eq_def]
                    simp [quoteChar, backslashChar, h0, hexRound _ hhi, hexRound _ hlo, ih rest]
                    refine ⟨ih rest, ?_⟩
                    rw [show c.toNat / 16 * 16 + c.toNat % 16 = c.toNat from by omega,
                      Char.ofNat_toNat]
                  · rw [if_neg h8]
                    simp only [List.cons_append, List.nil_append]
                    rw [parseStringBody.eq_def]
                    simp [h1, h2]
                    exact ih rest

end EtcdModel

namespace EtcdModel

mutual

/-- Fuel bound sufficient for the reader on printed output. -/
def jsize : JsonValue → Nat
  | .arr (x :: xs) => 1 + jsizeElems x xs
  | .obj (f :: fs) => 1 + jsizeFields f fs
  | _ => 1
termination_by v => sizeOf v

def jsizeElems : JsonValue → List JsonValue → Nat
  | x, [] => 1 + jsize x
  | x, y :: ys => 1 + jsize x + jsizeElems y ys
termination_by x xs => sizeOf x + sizeOf xs

def jsizeFields : (String × JsonValue) → List (String × JsonValue) → Nat
  | (_, v), [] => 1 + jsize v
  | (_, v), f :: fs => 1 + jsize v + jsizeFields f fs
termination_by f fs => sizeOf f + sizeOf fs

end

theorem jsize_pos (v : JsonValue) : 1 ≤ jsize v := by
  cases v with
  | null => simp [jsize]
  | bool b => simp [jsize]
  | num n => simp [jsize]
  | str s => simp [jsize]
  | arr elems => cases elems <;> simp [jsize]
  | obj fields => cases fields <;> simp [jsize]

theorem jsizeElems_pos (x : JsonValue) (xs : List JsonValue) : 1 ≤ jsizeElems x xs := by
  cases xs <;> simp only [jsizeElems] <;> omega

theorem jsizeFields_pos (f : String × JsonValue) (fs : List (String × JsonValue)) :
    1 ≤ jsizeFields f fs := by
  obtain ⟨k, v⟩ := f
  cases fs <;> simp only [jsizeFields] <;> omega

theorem printValue_cons (v : JsonValue) :
    ∃ c tl, printValue v = c :: tl ∧ ¬ c = ']' := by
  cases v with
  | null => exact ⟨'n', ['u', 'l', 'l'], by simp [printValue, nullChars], by decide⟩
  | bool b =>
    cases b with
    | false => exact ⟨'f', ['a', 'l', 's', 'e'], by simp [printValue, falseChars], by decide⟩
    | true => exact ⟨'t', ['r', 'u', 'e'], by simp [printValue, trueChars], by decide⟩
  | num n => cases n with
    | ofNat m =>
      obtain ⟨c, cs, hpn, hdig⟩ := printNat_cons m
      refine ⟨c, cs, by simp [printValue, printInt, hpn], fun he => ?_⟩
      rw [he] at hdig
      exact absurd hdig (by decide)
    | negSucc m => exact ⟨'-', printNat (m + 1), by simp [printValue, printInt], by decide⟩
  | str s =>
    exact ⟨quoteChar, escapeList s.data ++ [quoteChar], by simp [printValue, printString],
      by decide⟩
  | arr elems =>
    cases elems with
    | nil => exact ⟨'[', [']'], by simp [printValue], by decide⟩
    | cons x xs => exact ⟨'[', printElems x xs ++ [']'], by simp [printValue], by decide⟩
  | obj fields =>
    cases fields with
    | nil => exact ⟨lbraceChar, [rbraceChar], by simp [printValue], by decide⟩
    | cons f fs =>
      exact ⟨lbraceChar, printFields f fs ++ [rbraceChar], by simp [printValue], by decide⟩

theorem printElems_cons (x : JsonValue) (xs : List JsonValue) :
    ∃ c tl, printElems x xs = c :: tl ∧ ¬ c = ']' := by
  obtain ⟨c, tl, hv, hc⟩ := printValue_cons x
  cases xs with
  | nil => exact ⟨c, tl, by simp [printElems, hv], hc⟩
  | cons y ys => exact ⟨c, tl ++ ',' :: printElems y ys, by simp [printElems, hv], hc⟩



set_option maxHeartbeats 1000000 in
theorem parseValue_digit_entry (fuel : Nat) (c : Char) (tl : List Char)
    (hdig : isDigitChar c = true) :
    parseValue (fuel + 1) (c :: tl)
      = some (.num ((parseDigits (c :: tl) 0).1 : Int), (parseDigits (c :: tl) 0).2) := by
  have hn : ¬ c = 'n' := fun he => by rw [he] at hdig; exact absurd hdig (by decide)
  have ht : ¬ c = 't' := fun he => by rw [he] at hdig; exact absurd hdig (by decide)
  have hf : ¬ c = 'f' := fun he => by rw [he] at hdig; exact absurd hdig (by decide)
  have hq : ¬ c = quoteChar := fun he => by rw [he] at hdig; exact absurd hdig (by decide)
  have hmi : ¬ c = '-' := fun he => by rw [he] at hdig; exact absurd hdig (by decide)
  simp only [parseValue]
  rw [if_neg hn, if_neg ht, if_neg hf, if_neg hq, if_neg hmi, if_pos hdig]

end EtcdModel

namespace EtcdModel

theorem parseValue_nat (fuel : Nat) (m : Nat) (rest : List Char)
    (hrest : noDigitStart rest = true) :
    parseValue (fuel + 1) (printNat m ++ rest) = some (.num (m : Int), rest) := by
  obtain ⟨c, tl, hpn, hdig⟩ := printNat_cons m
  rw [hpn, List.cons_append, parseValue_digit_entry fuel c (tl ++ rest) hdig,
    ← List.cons_append, ← hpn, parseDigits_printNat, parseDigits_stop rest _ hrest]
  simp

set_option maxHeartbeats 1000000 in
theorem parseValue_neg (fuel : Nat) (m : Nat) (rest : List Char)
    (hrest : noDigitStart rest = true) :
    parseValue (fuel + 1) ('-' :: (printNat (m + 1) ++ rest))
      = some (.num (Int.negSucc m), rest) := by
  obtain ⟨c, tl, hpn, hdig⟩ := printNat_cons (m + 1)
  simp only [parseValue]
  rw [if_neg (show ¬ ('-' : Char) = 'n' from by decide),
    if_neg (show ¬ ('-' : Char) = 't' from by decide),
    if_neg (show ¬ ('-' : Char) = 'f' from by decide),
    if_neg (show ¬ ('-' : Char) = quoteChar from by decide)]
  simp only [if_true]
  rw [hpn, List.cons_append]
  simp only [hdig, if_true]
  rw [← List.cons_append, ← hpn, parseDigits_printNat, parseDigits_stop rest _ hrest]
  simp [Int.negSucc_eq]

end EtcdModel

namespace EtcdModel

theorem printFields_cons (f : String × JsonValue) (fs : List (String × JsonValue)) :
    ∃ tl, printFields f fs = quoteChar :: tl := by
  obtain ⟨k, v⟩ := f
  cases fs with
  | nil =>
    exact ⟨escapeList k.data ++ [quoteChar] ++ ':' :: printValue v,
      by simp [printFields, printString]⟩
  | cons f2 fs2 =>
    exact ⟨escapeList k.data ++ [quoteChar] ++ ':' :: printValue v ++ ',' :: printFields f2 fs2,
      by simp [printFields, printString]⟩

theorem noDigitStart_of (c : Char) (tl : List Char) (h : isDigitChar c = false) :
    noDigitStart (c :: tl) = true := by
  simp [noDigitStart, h]

set_option maxHeartbeats 2000000 in
theorem parsePrint (fuel : Nat) :
    (∀ (v : JsonValue) (rest : List Char), jsize v ≤ fuel → noDigitStart rest = true →
        parseValue fuel (printValue v ++ rest) = some (v, rest))
    ∧ (∀ (x : JsonValue) (xs : List JsonValue) (rest : List Char), jsizeElems x xs ≤ fuel →
        parseElems fuel (printElems x xs ++ (']' :: rest)) = some (x :: xs, rest))
    ∧ (∀ (f : String × JsonValue) (fs : List (String × JsonValue)) (rest : List Char),
        jsizeFields f fs ≤ fuel →
        parseFields fuel (printFields f fs ++ (rbraceChar :: rest)) = some (f :: fs, rest)) := by
  induction fuel with
  | zero =>
    exact ⟨fun v rest hj _ => absurd hj (by have := jsize_pos v; omega),
      fun x xs rest hj => absurd hj (by have := jsizeElems_pos x xs; omega),
      fun f fs rest hj => absurd hj (by have := jsizeFields_pos f fs; omega)⟩
  | succ fuel ih =>
    obtain ⟨ihV, ihE, ihF⟩ := ih
    refine ⟨?_, ?_, ?_⟩
    · intro v rest hj hrest
      cases v with
      | null => simp [printValue, parseValue, nullChars]
      | bool b =>
        cases b with
        | true => simp [printValue, parseValue, trueChars]
        | false => simp [printValue, parseValue, falseChars]
      | num n =>
        cases n with
        | ofNat m =>
          simpa [printValue, printInt] using parseValue_nat fuel m rest hrest
        | negSucc m =>
          simp only [printValue, printInt, List.cons_append]
          exact parseValue_neg fuel m rest hrest
      | str s =>
        simp only [printValue, printString, List.cons_append, List.append_assoc,
          List.singleton_append]
        simp only [parseValue]
        rw [if_neg (show ¬ quoteChar = 'n' from by decide),
          if_neg (show ¬ quoteChar = 't' from by decide),
          if_neg (show ¬ quoteChar = 'f' from by decide)]
        simp only [if_true, List.nil_append]
        rw [parseStringBody_escape s.data rest]
      | arr elems =>
        cases elems with
        | nil =>
          simp [printValue, parseValue, quoteChar,
            show isDigitChar '[' = false from by decide]
        | cons x xs =>
          obtain ⟨c0, tl0, hpe, hc0⟩ := printElems_cons x xs
          have hj' : jsizeElems x xs ≤ fuel := by
            simp only [jsize] at hj; omega
          simp only [printValue, List.cons_append, List.append_assoc, List.singleton_append]
          simp only [parseValue]
          rw [if_neg (show ¬ ('[' : Char) = 'n' from by decide),
            if_neg (show ¬ ('[' : Char) = 't' from by decide),
            if_neg (show ¬ ('[' : Char) = 'f' from by decide),
            if_neg (show ¬ ('[' : Char) = quoteChar from by decide),
            if_neg (show ¬ ('[' : Char) = '-' from by decide),
            if_neg (show ¬ isDigitChar '[' = true from by decide)]
          simp only [if_true]
          rw [hpe, List.cons_append]
          simp only [if_neg hc0, List.nil_append]
          rw [← List.cons_append, ← hpe, ihE x xs rest hj']
      | obj fields =>
        cases fields with
        | nil =>
          simp [printValue, parseValue, quoteChar, lbraceChar, rbraceChar,
            show isDigitChar (Char.ofNat 123) = false from by decide]
        | cons f fs =>
          obtain ⟨tlf, hpf⟩ := printFields_cons f fs
          have hj' : jsizeFields f fs ≤ fuel := by
            simp only [jsize] at hj; omega
          simp only [printValue, List.cons_append, List.append_assoc, List.singleton_append]
          simp only [parseValue]
          rw [if_neg (show ¬ lbraceChar = 'n' from by decide),
            if_neg (show ¬ lbraceChar = 't' from by decide),
            if_neg (show ¬ lbraceChar = 'f' from by decide),
            if_neg (show ¬ lbraceChar = quoteChar from by decide),
            if_neg (show ¬ lbraceChar = '-' from by decide),
            if_neg (show ¬ isDigitChar lbraceChar = true from by decide),
            if_neg (show ¬ lbraceChar = '[' from by decide)]
          simp only [if_true]
          rw [hpf, List.cons_append]
          simp only [if_neg (show ¬ quoteChar = rbraceChar from by decide), List.nil_append]
          rw [← List.cons_append, ← hpf, ihF f fs rest hj']
    · intro x xs rest hj
      cases xs with
      | nil =>
        have h1 := ihV x (']' :: rest) (by simp only [jsizeElems] at hj; omega)
          (noDigitStart_of _ _ (by decide))
        simp [printElems, parseElems, h1]
      | cons y ys =>
        have h1 := ihV x (',' :: (printElems y ys ++ (']' :: rest)))
          (by simp only [jsizeElems] at hj; omega) (noDigitStart_of _ _ (by decide))
        have h2 := ihE y ys rest (by simp only [jsizeElems] at hj; omega)
        simp [printElems, parseElems, h1, h2]
    · intro f fs rest hj
      obtain ⟨k, v⟩ := f
      cases fs with
      | nil =>
        have hb := parseStringBody_escape k.data (':' :: (printValue v ++ (rbraceChar :: rest)))
        have hv := ihV v (rbraceChar :: rest)
          (by simp only [jsizeFields] at hj; omega) (noDigitStart_of _ _ (by decide))
        simp [printFields, printString, parseFields, hb, hv,
          show ¬ rbraceChar = ',' from by decide,
          show ({ data := k.data } : String) = k from rfl]
      | cons f2 fs2 =>
        have hb := parseStringBody_escape k.data
          (':' :: (printValue v ++ (',' :: (printFields f2 fs2 ++ (rbraceChar :: rest)))))
        have hv := ihV v (',' :: (printFields f2 fs2 ++ (rbraceChar :: rest)))
          (by simp only [jsizeFields] at hj; omega) (noDigitStart_of _ _ (by decide))
        have hf2 := ihF f2 fs2 rest (by simp only [jsizeFields] at hj; omega)
        simp [printFields, printString, parseFields, hb, hv, hf2,
          show ¬ rbraceChar = ',' from by decide,
          show ({ data := k.data } : String) = k from rfl]

end EtcdModel

namespace EtcdModel

theorem jsize_le_printLength :
    ∀ (N : Nat),
    (∀ v : JsonValue, sizeOf v < N → jsize v ≤ (printValue v).length)
    ∧ (∀ (x : JsonValue) (xs : List JsonValue), sizeOf x + sizeOf xs < N →
        jsizeElems x xs ≤ (printElems x xs).length + 1)
    ∧ (∀ (f : String × JsonValue) (fs : List (String × JsonValue)), sizeOf f + sizeOf fs < N →
        jsizeFields f fs ≤ (printFields f fs).length + 1) := by
  intro N
  induction N with
  | zero => exact ⟨fun v h => absurd h (by omega), fun x xs h => absurd h (by omega),
      fun f fs h => absurd h (by omega)⟩
  | succ N ih =>
    obtain ⟨ihV, ihE, ihF⟩ := ih
    refine ⟨?_, ?_, ?_⟩
    · intro v hs
      cases v with
      | null => simp [jsize, printValue, nullChars]
      | bool b => cases b <;> simp [jsize, printValue, trueChars, falseChars]
      | num n =>
        cases n with
        | ofNat m =>
          obtain ⟨c, tl, hpn, -⟩ := printNat_cons m
          simp [jsize, printValue, printInt, hpn]
        | negSucc m =>
          simp [jsize, printValue, printInt]
      | str s => simp [jsize, printValue, printString]
      | arr elems =>
        cases elems with
        | nil => simp [jsize, printValue]
        | cons x xs =>
          have hs' : sizeOf x + sizeOf xs < N := by simp at hs; omega
          have := ihE x xs hs'
          simp only [jsize, printValue, List.length_append, List.cons_append,
            List.length_cons, List.length_singleton]
          omega
      | obj fields =>
        cases fields with
        | nil => simp [jsize, printValue]
        | cons f fs =>
          have hs' : sizeOf f + sizeOf fs < N := by simp at hs; omega
          have := ihF f fs hs'
          simp only [jsize, printValue, List.length_append, List.cons_append,
            List.length_cons, List.length_singleton]
          omega
    · intro x xs hs
      cases xs with
      | nil =>
        have hs' : sizeOf x < N := by simp at hs; omega
        have := ihV x hs'
        simp only [jsizeElems, printElems]
        omega
      | cons y ys =>
        have hs1 : sizeOf x < N := by simp at hs; omega
        have hs2 : sizeOf y + sizeOf ys < N := by simp at hs; omega
        have h1 := ihV x hs1
        have h2 := ihE y ys hs2
        simp only [jsizeElems, printElems, List.length_append, List.length_cons]
        omega
    · intro f fs hs
      obtain ⟨k, v⟩ := f
      cases fs with
      | nil =>
        have hs' : sizeOf v < N := by simp at hs; omega
        have := ihV v hs'
        simp only [jsizeFields, printFields, List.length_append, List.length_cons]
        omega
      | cons f2 fs2 =>
        have hs1 : sizeOf v < N := by simp at hs; omega
        have hs2 : sizeOf f2 + sizeOf fs2 < N := by simp at hs; omega
        have h1 := ihV v hs1
        have h2 := ihF f2 fs2 hs2
        simp only [jsizeFields, printFields, List.length_append, List.length_cons]
        omega

/-- `JSON.parse (JSON.stringify v)` recovers `v`. -/
theorem parse_stringify (v : JsonValue) : parseJson (stringify v) = some v := by
  have hsize : jsize v ≤ (printValue v).length :=
    (jsize_le_printLength (sizeOf v + 1)).1 v (by omega)
  have h := (parsePrint ((printValue v).length + 1)).1 v [] (by omega) rfl
  rw [List.append_nil] at h
  simp only [parseJson, stringify]
  rw [h]

end EtcdModel

namespace EtcdModel

/-! ## Value store facade: `get` and `set` -/

/-- A store-reported error: `errorCode` is etcd's numeric classifier
(absent on e.g. transport failures) and `payload` stands for the rest of
the error object, so that propagation "verbatim" is visible. -/
structure StoreError where
  errorCode : Option Nat
  payload : Nat
deriving DecidableEq, Repr

/-- The settled state of a `get` call's promise. -/
inductive GetOutcome
  /-- resolved with no value (`accept()` on errorCode 100, `accept(null)`
  when the response carries no document) -/
  | absent
  /-- resolved with `JSON.parse(value.node.value)` -/
  | value (v : JsonValue)
  /-- `JSON.parse` threw on a non-JSON document -/
  | parseFailed
  /-- rejected with the store's error object -/
  | failed (e : StoreError)

/-- Shallow embedding of `get(context, key)` (non-recursive mode).  The
etcd callback receives `(error, value)`; the promise settles once, so the
first `accept`/`reject` wins: errorCode 100 resolves with no value, any
other error rejects with the error object itself, otherwise the raw
document is parsed (`null` resolved when the response has no value). -/
def getResult (error : Option StoreError) (raw : Option String) : GetOutcome :=
  match error with
  | some e => if e.errorCode = some 100 then .absent else .failed e
  | none =>
    match raw with
    | some s =>
      match parseJson s with
      | some v => .value v
      | none => .parseFailed
    | none => .absent

/-- `set(context, key, value, ttl)` submits `JSON.stringify(value)` to the
store under `key`; `ttl = 0` means no expiry (the association list store
has no expiry clock, so the ttl does not affect the stored document). -/
def setStore (store : List (String × String)) (k : String) (v : JsonValue) (_ttl : Nat) :
    List (String × String) :=
  (k, stringify v) :: store.filter (fun p => p.1 != k)

/-- A `get` round trip against the raw-document store: no store error,
the document present exactly when the key was written. -/
def getFromStore (store : List (String × String)) (k : String) : GetOutcome :=
  getResult none ((store.find? (fun p => p.1 == k)).map (fun p => p.2))

/-! ## Claims C7 and C8 -/

/-- C7: `get` translates the store's "key not found" error (errorCode
100) into an absent result — the call resolves without a value and raises
no error; every other store error rejects the call with the very error
object the store reported (its native classification attached). -/
theorem C7_get_error_translation :
    (∀ (raw : Option String) (payload : Nat),
        getResult (some ⟨some 100, payload⟩) raw = .absent)
      ∧ ∀ (e : StoreError) (raw : Option String), e.errorCode ≠ some 100 →
          getResult (some e) raw = .failed e := by
  constructor
  · intro raw payload
    rfl
  · intro e raw h
    simp [getResult, h]

/-- C7 witness: errorCode 100 resolves absent; errorCode 105 rejects with
the same error object. -/
theorem C7_get_error_translation_witness :
    getResult (some ⟨some 100, 3⟩) (some "null") = .absent
      ∧ getResult (some ⟨some 105, 7⟩) none = .failed ⟨some 105, 7⟩ :=
  ⟨C7_get_error_translation.1 (some "null") 3,
    C7_get_error_translation.2 ⟨some 105, 7⟩ none (by decide)⟩

/-- C8: round-trip — for every JSON-serializable value `v` (objects,
arrays, primitives; numbers modelled as integers), `set(key, v, ttl=0)`
followed by `get(key)` on the same key yields exactly `v`, via JSON
serialization at write time and JSON parsing at read time. -/
theorem C8_set_get_roundtrip :
    ∀ (store : List (String × String)) (k : String) (v : JsonValue),
      getFromStore (setStore store k v 0) k = .value v := by
  intro store k v
  simp [setStore, getFromStore, getResult, List.find?, parse_stringify]

/-! ## Claim C9: logger requirements -/

/-- Outcome of constructing the client: the constructor computes
`this.baseLogger = context.logger || context.gb?.logger`, asserts
`this.baseLogger?.info` (message: 'Constructor must have a logger
property'), then calls `context.logger.info(...)` unconditionally. -/
inductive ConstructorOutcome
  | ok
  /-- `assert(this.baseLogger?.info, ...)` threw -/
  | assertFailed
  /-- `context.logger.info(...)` threw (`context.logger` absent) -/
  | typeError
deriving DecidableEq, Repr

/-- `ctxLogger` / `gbLogger` say whether `context.logger` (with `.info`)
and `context.gb?.logger` are present. -/
def constructorOutcome (ctxLogger gbLogger : Bool) : ConstructorOutcome :=
  let base := ctxLogger || gbLogger
  if !base then .assertFailed
  else if !ctxLogger then .typeError
  else .ok

/-- Per-operation logger resolution
`context.gb?.logger || this.baseLogger` used by
`get`/`set`/`del`/`acquireLock`/`memoize`: the `.info` call throws iff
both are absent. -/
def opLoggerFatal (callGbLogger baseLogger : Bool) : Bool :=
  !(callGbLogger || baseLogger)

/-- C9 (counterexample): a missing logger *is* fatal to construction —
with no `context.logger` and no `context.gb.logger` the constructor's
assertion throws, and even with only `context.gb.logger` present the
unconditional `context.logger.info(...)` call throws. -/
theorem C9_construction_requires_logger :
    constructorOutcome false false = .assertFailed
      ∧ constructorOutcome false true = .typeError := by decide

/-- C9 (amended): construction requires `context.logger` (it asserts and
dereferences it); but once the client is constructed (so a base logger
exists), no *operation* fails for lack of a per-call logger: every
operation resolves `context.gb?.logger || this.baseLogger`, which cannot
be absent, and the operation models in this file take no logger input —
their results are independent of the per-call logger. -/
theorem C9_ops_tolerate_missing_logger :
    (∀ g : Bool, constructorOutcome true g = .ok)
      ∧ (∀ g : Bool, constructorOutcome false g ≠ .ok)
      ∧ (∀ g : Bool, opLoggerFatal g true = false) := by
  refine ⟨fun g => by cases g <;> rfl, fun g => by cases g <;> decide,
    fun g => by cases g <;> rfl⟩

end EtcdModel
